import Mathlib

/-!
Verification of the example RPC service (`src/example-service/src/server.rs`)
and the line-delimited JSON transport it configures.

The handlers (`HelloServer::hello`, `HelloServer::add`), the port parsing in
`main`, and the bind/run structure are embedded from the source.  The parts of
the system that live outside the given source file — the serde_json encoding
used by `transport`, and the tarpc dispatcher/server loop — are modelled from
the specification, as marked in their doc comments.
-/

/-- Modelled from the spec: the values the pluggable textual encoding
(one-JSON-object-per-line, serde_json) can carry.  Numbers are integers,
which covers every payload of this service (`i32` and `String`). -/
inductive Json where
  | null : Json
  | bool (b : Bool) : Json
  | num (n : Int) : Json
  | str (s : String) : Json
  | arr (elems : List Json) : Json
  | obj (members : List (String × Json)) : Json

/-- The decimal digit `d` (`d < 10`) as a character. -/
def digitChar (d : Nat) : Char := Char.ofNat (48 + d)

/-- The numeric value of a decimal digit character. -/
def digitVal (c : Char) : Nat := c.toNat - 48

/-- The hexadecimal digit `d` (`d < 16`) as a lowercase character. -/
def nibbleChar (d : Nat) : Char :=
  if d < 10 then Char.ofNat (48 + d) else Char.ofNat (87 + d)

/-- The numeric value of a lowercase hexadecimal digit character. -/
def hexVal (c : Char) : Nat :=
  if c.isDigit then c.toNat - 48 else c.toNat - 87

/-- Decimal digits of `n`, most significant first (`"0"` for zero). -/
def natChars (n : Nat) : List Char :=
  if n = 0 then ['0'] else ((Nat.digits 10 n).map digitChar).reverse

/-- JSON rendering of an integer: optional minus sign, then decimal digits. -/
def renderInt (n : Int) : List Char :=
  if n < 0 then '-' :: natChars n.natAbs else natChars n.toNat

/-- The low byte `n` (`n < 256`) as two lowercase hex digits. -/
def hexPair (n : Nat) : List Char := [nibbleChar (n / 16), nibbleChar (n % 16)]

/-- Modelled from the spec: JSON string escaping for the one-object-per-line
encoding.  Quote, backslash and control characters are escaped, so a payload
can never contain the newline frame delimiter. -/
def escapeChar (c : Char) : List Char :=
  if c = '"' then ['\\', '"']
  else if c = '\\' then ['\\', '\\']
  else if c = '\n' then ['\\', 'n']
  else if c = '\t' then ['\\', 't']
  else if c = '\r' then ['\\', 'r']
  else if c.toNat < 32 then "\\u00".data ++ hexPair c.toNat
  else [c]

/-- Escape every character of a string body. -/
def escapeL (cs : List Char) : List Char := cs.flatMap escapeChar

mutual

/-- Modelled from the spec: compact one-line JSON rendering (serde_json
`to_string`): no whitespace, `,` between elements, `:` after keys. -/
def emitVal : Json → List Char
  | .null => 'n' :: "ull".data
  | .bool true => 't' :: "rue".data
  | .bool false => 'f' :: "alse".data
  | .num n => renderInt n
  | .str s => '"' :: (escapeL s.data ++ ['"'])
  | .arr xs => '[' :: (emitElems xs ++ [']'])
  | .obj ms => '\x7b' :: (emitFields ms ++ ['\x7d'])

/-- Comma-separated rendering of array elements (without the brackets). -/
def emitElems : List Json → List Char
  | [] => []
  | [x] => emitVal x
  | x :: y :: ys => emitVal x ++ ',' :: emitElems (y :: ys)

/-- Comma-separated rendering of object members (without the braces). -/
def emitFields : List (String × Json) → List Char
  | [] => []
  | [(k, v)] => '"' :: (escapeL k.data ++ '"' :: ':' :: emitVal v)
  | (k, v) :: m :: ms =>
    ('"' :: (escapeL k.data ++ '"' :: ':' :: emitVal v)) ++ ',' :: emitFields (m :: ms)

end

/-- Expect the literal characters `pat` at the front of the input and
return the remainder. -/
def expectL : List Char → List Char → Option (List Char)
  | [], l => some l
  | _ :: _, [] => none
  | p :: ps, c :: cs => if c = p then expectL ps cs else none

/-- Parse a JSON string body (after the opening quote) up to the closing
quote, undoing escapes; returns the body and the remaining input. -/
def readStrBody : List Char → Option (List Char × List Char)
  | [] => none
  | c :: rest =>
    if c = '"' then some ([], rest)
    else if c = '\\' then
      match rest with
      | [] => none
      | e :: rest2 =>
        if e = '"' then (readStrBody rest2).map fun p => ('"' :: p.1, p.2)
        else if e = '\\' then (readStrBody rest2).map fun p => ('\\' :: p.1, p.2)
        else if e = 'n' then (readStrBody rest2).map fun p => ('\n' :: p.1, p.2)
        else if e = 't' then (readStrBody rest2).map fun p => ('\t' :: p.1, p.2)
        else if e = 'r' then (readStrBody rest2).map fun p => ('\r' :: p.1, p.2)
        else if e = 'u' then
          match rest2 with
          | h1 :: h2 :: h3 :: h4 :: rest3 =>
            (readStrBody rest3).map fun p =>
              (Char.ofNat (4096 * hexVal h1 + 256 * hexVal h2 + 16 * hexVal h3 + hexVal h4)
                :: p.1, p.2)
          | _ => none
        else none
    else (readStrBody rest).map fun p => (c :: p.1, p.2)

/-- Parse a nonempty run of decimal digits as a natural number. -/
def readNat (l : List Char) : Option (Nat × List Char) :=
  let ds := l.takeWhile Char.isDigit
  if ds.isEmpty then none
  else some (ds.foldl (fun a c => 10 * a + digitVal c) 0, l.dropWhile Char.isDigit)

mutual

/-- Modelled from the spec: JSON parsing (serde_json `from_str`) with a fuel
bound on nesting recursion; any input of length below the fuel parses fully. -/
def readVal : Nat → List Char → Option (Json × List Char)
  | 0, _ => none
  | _ + 1, [] => none
  | fuel + 1, c :: rest =>
    if c = 'n' then (expectL "ull".data rest).map fun r => (.null, r)
    else if c = 't' then (expectL "rue".data rest).map fun r => (.bool true, r)
    else if c = 'f' then (expectL "alse".data rest).map fun r => (.bool false, r)
    else if c = '"' then (readStrBody rest).map fun p => (.str (String.mk p.1), p.2)
    else if c = '[' then (readElems fuel rest).map fun p => (.arr p.1, p.2)
    else if c = '\x7b' then (readFields fuel rest).map fun p => (.obj p.1, p.2)
    else if c = '-' then (readNat rest).map fun p => (.num (-(p.1 : Int)), p.2)
    else if c.isDigit then (readNat (c :: rest)).map fun p => (.num (p.1 : Int), p.2)
    else none

/-- Parse array elements up to and including the closing bracket. -/
def readElems : Nat → List Char → Option (List Json × List Char)
  | 0, _ => none
  | _ + 1, [] => none
  | fuel + 1, c :: rest =>
    if c = ']' then some ([], rest)
    else
      match readVal fuel (c :: rest) with
      | some (v, r) =>
        match r with
        | [] => none
        | d :: r2 =>
          if d = ',' then (readElems fuel r2).map fun p => (v :: p.1, p.2)
          else if d = ']' then some ([v], r2)
          else none
      | none => none

/-- Parse object members up to and including the closing brace. -/
def readFields : Nat → List Char → Option (List (String × Json) × List Char)
  | 0, _ => none
  | _ + 1, [] => none
  | fuel + 1, c :: rest =>
    if c = '\x7d' then some ([], rest)
    else if c = '"' then
      match readStrBody rest with
      | some (k, r1) =>
        match r1 with
        | [] => none
        | d :: r2 =>
          if d = ':' then
            match readVal fuel r2 with
            | some (v, r3) =>
              match r3 with
              | [] => none
              | e :: r4 =>
                if e = ',' then
                  (readFields fuel r4).map fun p => ((String.mk k, v) :: p.1, p.2)
                else if e = '\x7d' then some ([(String.mk k, v)], r4)
                else none
            | none => none
          else none
      | none => none
    else none

end

/-- Modelled from the spec: `send`-side encoding, one JSON object per line
(serde_json `to_string` inside `transport`). -/
def encode (v : Json) : String := String.mk (emitVal v)

/-- Modelled from the spec: `receive`-side decoding of one line (serde_json
`from_str` inside `transport`); fails on undecodable frames. -/
def decode (s : String) : Option Json :=
  match readVal (s.data.length + 1) s.data with
  | some (v, []) => some v
  | _ => none

/-! ### The service: data model and handlers from `server.rs` -/

/-- The tarpc request context (`context::Context`); both handlers ignore
their context argument. -/
structure Context

/-- The service implementation type: `struct HelloServer;`, a unit struct
carrying no fields and hence no state. -/
structure HelloServer

/-- Smallest `i32` value, `-2^31`. -/
def i32Min : Int := -2147483648

/-- Largest `i32` value, `2^31 - 1`. -/
def i32Max : Int := 2147483647

/-- The integer is representable as an `i32`. -/
def inI32 (n : Int) : Prop := i32Min ≤ n ∧ n ≤ i32Max

instance (n : Int) : Decidable (inI32 n) := by
  unfold inI32
  infer_instance

/-- Two's-complement wrap of an integer into the `i32` range: the unique
representative of `n` modulo `2^32` lying in `[-2^31, 2^31)`.  This is the
release-mode semantics of `i32` addition in `HelloServer::add`. -/
def wrap32 (n : Int) : Int := (n + 2147483648) % 4294967296 - 2147483648

/-- `HelloServer::hello`: `format!("Hello, {} {}!", first, last)`. -/
def HelloServer.hello (_srv : HelloServer) (_ctx : Context) (first last : String) : String :=
  "Hello, " ++ first ++ " " ++ last ++ "!"

/-- `HelloServer::add`: `x + y` on `i32`, two's-complement wrapping. -/
def HelloServer.add (_srv : HelloServer) (_ctx : Context) (x y : Int) : Int :=
  wrap32 (x + y)

/-- Per-request error taxonomy of the dispatcher (spec section 7). -/
inductive RpcError where
  | unknownMethod : RpcError
  | argumentDecodeError : RpcError

/-- Modelled from the spec: a request is a method identifier, an ordered
sequence of serialized argument values, and a correlation id. -/
structure Request where
  method : String
  args : List Json
  correlationId : Nat

/-- Modelled from the spec: a response carries the request's correlation id
and either a success payload or an error descriptor. -/
structure Response where
  correlationId : Nat
  result : Except RpcError Json

/-- Modelled from the spec: the tarpc-generated dispatcher (`service::serve`
is produced by the `service!` macro, outside the given source).  It looks up
the method by identifier, decodes the arguments into the handler's typed
parameters, invokes the handler, and answers with the same correlation id;
unknown methods and argument decode failures become per-request error
responses. -/
def dispatch (srv : HelloServer) (ctx : Context) (r : Request) : Response :=
  if r.method = "hello" then
    match r.args with
    | [Json.str f, Json.str l] => ⟨r.correlationId, .ok (.str (srv.hello ctx f l))⟩
    | _ => ⟨r.correlationId, .error .argumentDecodeError⟩
  else if r.method = "add" then
    match r.args with
    | [Json.num x, Json.num y] =>
      if inI32 x ∧ inI32 y then ⟨r.correlationId, .ok (.num (srv.add ctx x y))⟩
      else ⟨r.correlationId, .error .argumentDecodeError⟩
    | _ => ⟨r.correlationId, .error .argumentDecodeError⟩
  else ⟨r.correlationId, .error .unknownMethod⟩

/-- Modelled from the spec: the wire shape of a request, one JSON object
with the method identifier, correlation id and argument payload. -/
def requestOfJson : Json → Option Request
  | .obj [("method", .str m), ("id", .num i), ("args", .arr a)] =>
    if 0 ≤ i then some ⟨m, a, i.toNat⟩ else none
  | _ => none

/-- Decode one received line into a request (`serde_json::from_str` inside
`transport`, then the request shape). -/
def decodeRequest (line : String) : Option Request :=
  match decode line with
  | some j => requestOfJson j
  | none => none

/-- What the connection produces for one inbound frame: a reply, or the
per-request error response answering an undecodable frame. -/
inductive ConnEvent where
  | reply (r : Response) : ConnEvent
  | decodeError : ConnEvent

/-- Modelled from the spec: the per-connection processing loop of the tarpc
server (outside the given source).  Every frame is answered: an undecodable
frame yields a `DecodeError` response and the connection keeps processing
the remaining frames. -/
def processFrames (srv : HelloServer) (ctx : Context) : List String → List ConnEvent
  | [] => []
  | f :: rest =>
    (match decodeRequest f with
     | some req => ConnEvent.reply (dispatch srv ctx req)
     | none => ConnEvent.decodeError) :: processFrames srv ctx rest

/-! ### Startup: port parsing and bind (`main` and `run`) -/

/-- Error cases of Rust `u16::from_str` relevant to `--port`. -/
inductive IntParseError where
  | empty : IntParseError
  | invalidDigit : IntParseError
  | overflow : IntParseError

/-- Display strings of `std::num::ParseIntError`. -/
def intParseErrorMsg : IntParseError → String
  | .empty => "cannot parse integer from empty string"
  | .invalidDigit => "invalid digit found in string"
  | .overflow => "number too large to fit in target type"

/-- Digit-by-digit accumulation of `u16::from_str`: an invalid digit fails,
and exceeding `u16::MAX` overflows. -/
def parseU16Go : List Char → Nat → Except IntParseError Nat
  | [], acc => .ok acc
  | c :: rest, acc =>
    if c.isDigit then
      if acc * 10 + digitVal c > 65535 then .error .overflow
      else parseU16Go rest (acc * 10 + digitVal c)
    else .error .invalidDigit

/-- Model of `str::parse::<u16>()` as `main` applies it to the `--port`
value: optional leading `+`, then decimal digits, bounded by `u16::MAX`. -/
def parseU16 (s : String) : Except IntParseError Nat :=
  match s.data with
  | [] => .error .empty
  | '+' :: rest =>
    match rest with
    | [] => .error .invalidDigit
    | _ => parseU16Go rest 0
  | l => parseU16Go l 0

/-- Exit code of a Rust process terminated by panic. -/
def panicExitCode : Nat := 101

/-- The panic message of `main` for an invalid `--port` value:
`--port value "{}" invalid: {}` with the offending value and the parse
error filled in. -/
def portErrorMsg (s : String) (e : IntParseError) : String :=
  "--port value \"" ++ s ++ "\" invalid: " ++ intParseErrorMsg e

/-- The port-parsing step of `main`: the parsed port, or the panic message
and the nonzero exit code of the aborted process. -/
def mainParsePort (s : String) : Except (String × Nat) Nat :=
  match parseU16 s with
  | .ok p => .ok p
  | .error e => .error (portErrorMsg s e, panicExitCode)

/-- A successfully bound listener and the connections it will accept, each
connection being the list of frames received on it. -/
structure Listener where
  connections : List (List String)

/-- `run`: `TcpListener::bind(&server_addr)?` propagates a bind failure
immediately to the caller; otherwise the server loop (modelled from the
spec) serves every accepted connection. -/
def run (srv : HelloServer) (ctx : Context) (bindResult : Except String Listener) :
    Except String (List (List ConnEvent)) :=
  match bindResult with
  | .error e => .error e
  | .ok lis => .ok (lis.connections.map (processFrames srv ctx))

/-- `main`'s reporting of a serve error: `eprintln!("Oh no: {}", e)`. -/
def reportServeError (e : String) : String := "Oh no: " ++ e


/-- The first character of a list either fails the predicate or the list
is empty; used to stop `takeWhile` exactly at a boundary. -/
def headFails (p : Char → Bool) : List Char → Prop
  | [] => True
  | c :: _ => p c = false

/-- What may legally follow a rendered JSON value: nothing, or one of the
closing delimiters the grammar uses.  Guarantees number parsing stops. -/
def delimOk : List Char → Prop
  | [] => True
  | c :: _ => c = ',' ∨ c = ']' ∨ c = '\x7d'

/-! ### Character and digit lemmas -/

theorem expectL_append (ps rest : List Char) : expectL ps (ps ++ rest) = some rest := by
  induction ps with
  | nil => rfl
  | cons p ps ih => simp [expectL, ih]

theorem digitChar_isDigit (d : Nat) (h : d < 10) : (digitChar d).isDigit = true := by
  interval_cases d <;> decide

theorem digitVal_digitChar (d : Nat) (h : d < 10) : digitVal (digitChar d) = d := by
  interval_cases d <;> decide

theorem hexVal_hexDigitChar (d : Nat) (h : d < 16) : hexVal (nibbleChar d) = d := by
  interval_cases d <;> decide

/-- A decimal digit character is none of the characters the JSON value
parser dispatches on before its digit branch, nor a structural delimiter. -/
theorem isDigit_ne (c : Char) (h : c.isDigit = true) :
    c ≠ 'n' ∧ c ≠ 't' ∧ c ≠ 'f' ∧ c ≠ '"' ∧ c ≠ '[' ∧ c ≠ '\x7b' ∧ c ≠ '-' ∧
      c ≠ ']' ∧ c ≠ '\x7d' ∧ c ≠ ',' := by
  refine ⟨?_, ?_, ?_, ?_, ?_, ?_, ?_, ?_, ?_, ?_⟩ <;>
    · intro e
      subst e
      exact absurd h (by decide)

theorem natChars_ne_nil (n : Nat) : natChars n ≠ [] := by
  unfold natChars
  split
  · simp
  · rename_i h
    simp only [ne_eq, List.reverse_eq_nil_iff, List.map_eq_nil_iff]
    exact Nat.digits_ne_nil_iff_ne_zero.2 h

theorem natChars_all_digits (n : Nat) : ∀ c ∈ natChars n, c.isDigit = true := by
  unfold natChars
  split
  · intro c hc
    have h0 : c = '0' := by simpa using hc
    subst h0
    decide
  · intro c hc
    rw [List.mem_reverse, List.mem_map] at hc
    obtain ⟨d, hd, rfl⟩ := hc
    exact digitChar_isDigit d (Nat.digits_lt_base (by norm_num) hd)

theorem foldr_digits (ds : List Nat) (h : ∀ d ∈ ds, d < 10) :
    List.foldr (fun c a => 10 * a + digitVal c) 0 (ds.map digitChar) = Nat.ofDigits 10 ds := by
  induction ds with
  | nil => simp [Nat.ofDigits]
  | cons d ds ih =>
    have hd : d < 10 := h d (by simp)
    have hrest : ∀ x ∈ ds, x < 10 := fun x hx => h x (by simp [hx])
    simp [Nat.ofDigits_cons, ih hrest, digitVal_digitChar d hd]
    omega

theorem foldl_natChars (n : Nat) :
    (natChars n).foldl (fun a c => 10 * a + digitVal c) 0 = n := by
  unfold natChars
  split
  · subst n
    decide
  · rw [List.foldl_reverse, foldr_digits _ (fun d hd => Nat.digits_lt_base (by norm_num) hd),
      Nat.ofDigits_digits]

theorem takeWhile_append_all {p : Char → Bool} (xs ys : List Char)
    (h1 : ∀ c ∈ xs, p c = true) (h2 : headFails p ys) :
    (xs ++ ys).takeWhile p = xs := by
  induction xs with
  | nil =>
    cases ys with
    | nil => rfl
    | cons c cs =>
      have h2' : p c = false := h2
      simp [List.takeWhile_cons, h2']
  | cons x xs ih =>
    have hx : p x = true := h1 x (by simp)
    simp [List.takeWhile, hx, ih (fun c hc => h1 c (by simp [hc]))]

theorem dropWhile_append_all {p : Char → Bool} (xs ys : List Char)
    (h1 : ∀ c ∈ xs, p c = true) (h2 : headFails p ys) :
    (xs ++ ys).dropWhile p = ys := by
  induction xs with
  | nil =>
    cases ys with
    | nil => rfl
    | cons c cs =>
      have h2' : p c = false := h2
      simp [List.dropWhile_cons, h2']
  | cons x xs ih =>
    have hx : p x = true := h1 x (by simp)
    simp [List.dropWhile, hx, ih (fun c hc => h1 c (by simp [hc]))]

theorem parseNat_natChars (n : Nat) (rest : List Char) (h : headFails Char.isDigit rest) :
    readNat (natChars n ++ rest) = some (n, rest) := by
  unfold readNat
  rw [takeWhile_append_all _ _ (natChars_all_digits n) h,
    dropWhile_append_all _ _ (natChars_all_digits n) h]
  have hne : (natChars n).isEmpty = false := by
    cases hh : natChars n with
    | nil => exact absurd hh (natChars_ne_nil n)
    | cons c cs => rfl
  simp [hne, foldl_natChars]

/-! ### Shape of rendered output -/

theorem delimOk_headFails (l : List Char) (h : delimOk l) :
    headFails Char.isDigit l := by
  cases l with
  | nil => trivial
  | cons c cs =>
    rcases h with h | h | h <;> subst h <;> rfl

/-- A rendered value is nonempty and never begins with a closing delimiter
or a comma. -/
theorem renderL_head (v : Json) :
    ∃ c cs, emitVal v = c :: cs ∧ c ≠ ']' ∧ c ≠ '\x7d' ∧ c ≠ ',' := by
  cases v with
  | null => exact ⟨'n', ['u', 'l', 'l'], by simp [emitVal], by decide, by decide, by decide⟩
  | bool b =>
    cases b with
    | true => exact ⟨'t', ['r', 'u', 'e'], by simp [emitVal], by decide, by decide, by decide⟩
    | false =>
      exact ⟨'f', ['a', 'l', 's', 'e'], by simp [emitVal], by decide, by decide, by decide⟩
  | num n =>
    by_cases hneg : n < 0
    · exact ⟨'-', natChars n.natAbs, by simp [emitVal, renderInt, hneg], by decide, by decide,
        by decide⟩
    · cases hnc : natChars n.toNat with
      | nil => exact absurd hnc (natChars_ne_nil _)
      | cons c cs =>
        have hdig : c.isDigit = true := natChars_all_digits _ c (by rw [hnc]; simp)
        obtain ⟨-, -, -, -, -, -, -, h8, h9, h10⟩ := isDigit_ne c hdig
        exact ⟨c, cs, by simp [emitVal, renderInt, hneg, hnc], h8, h9, h10⟩
  | str s =>
    exact ⟨'"', escapeL s.data ++ ['"'], by simp [emitVal], by decide, by decide, by decide⟩
  | arr xs =>
    exact ⟨'[', emitElems xs ++ [']'], by simp [emitVal], by decide, by decide, by decide⟩
  | obj ms =>
    exact ⟨'\x7b', emitFields ms ++ ['\x7d'], by simp [emitVal], by decide, by decide,
      by decide⟩

/-! ### String escaping round-trip -/

theorem parseStrAux_escape (cs rest : List Char) :
    readStrBody (escapeL cs ++ '"' :: rest) = some (cs, rest) := by
  induction cs with
  | nil =>
    rw [show escapeL [] ++ '"' :: rest = '"' :: rest from rfl, readStrBody.eq_def]
    simp
  | cons c cs ih =>
    have hsplit : escapeL (c :: cs) = escapeChar c ++ escapeL cs := by simp [escapeL]
    rw [hsplit, List.append_assoc]
    unfold escapeChar
    split_ifs with h1 h2 h3 h4 h5 h6
    · subst h1; rw [show (['\\', '"'] : List Char) ++ (escapeL cs ++ '"' :: rest) =
        '\\' :: '"' :: (escapeL cs ++ '"' :: rest) from rfl, readStrBody.eq_def]; simp [ih]
    · subst h2; rw [show (['\\', '\\'] : List Char) ++ (escapeL cs ++ '"' :: rest) =
        '\\' :: '\\' :: (escapeL cs ++ '"' :: rest) from rfl, readStrBody.eq_def]; simp [ih]
    · subst h3; rw [show (['\\', 'n'] : List Char) ++ (escapeL cs ++ '"' :: rest) =
        '\\' :: 'n' :: (escapeL cs ++ '"' :: rest) from rfl, readStrBody.eq_def]; simp [ih]
    · subst h4; rw [show (['\\', 't'] : List Char) ++ (escapeL cs ++ '"' :: rest) =
        '\\' :: 't' :: (escapeL cs ++ '"' :: rest) from rfl, readStrBody.eq_def]; simp [ih]
    · subst h5; rw [show (['\\', 'r'] : List Char) ++ (escapeL cs ++ '"' :: rest) =
        '\\' :: 'r' :: (escapeL cs ++ '"' :: rest) from rfl, readStrBody.eq_def]; simp [ih]
    · have hdiv : c.toNat / 16 < 16 := by omega
      have hmod : c.toNat % 16 < 16 := Nat.mod_lt _ (by norm_num)
      have h0 : hexVal '0' = 0 := by decide
      have hchar : Char.ofNat
          (4096 * hexVal '0' + 256 * hexVal '0' +
            16 * hexVal (nibbleChar (c.toNat / 16)) + hexVal (nibbleChar (c.toNat % 16)))
          = c := by
        rw [h0, hexVal_hexDigitChar _ hdiv, hexVal_hexDigitChar _ hmod]
        have ht : 4096 * 0 + 256 * 0 + 16 * (c.toNat / 16) + c.toNat % 16 = c.toNat := by
          omega
        rw [ht, Char.ofNat_toNat]
      rw [show "\\u00".data ++ hexPair c.toNat ++ (escapeL cs ++ '"' :: rest) =
        '\\' :: 'u' :: '0' :: '0' :: nibbleChar (c.toNat / 16) ::
          nibbleChar (c.toNat % 16) :: (escapeL cs ++ '"' :: rest) from rfl,
        readStrBody.eq_def]
      simp [ih, hchar]
    · rw [show ([c] : List Char) ++ (escapeL cs ++ '"' :: rest) =
        c :: (escapeL cs ++ '"' :: rest) from rfl, readStrBody.eq_def]
      simp [h1, h2, ih]

/-! ### Main parser round-trip -/

theorem string_mk_data (s : String) : String.mk s.data = s := rfl

theorem parse_render (fuel : Nat) :
    (∀ v rest, (emitVal v).length ≤ fuel → delimOk rest →
      readVal fuel (emitVal v ++ rest) = some (v, rest)) ∧
    (∀ xs rest, (emitElems xs).length + 1 ≤ fuel →
      readElems fuel (emitElems xs ++ ']' :: rest) = some (xs, rest)) ∧
    (∀ ms rest, (emitFields ms).length + 1 ≤ fuel →
      readFields fuel (emitFields ms ++ '\x7d' :: rest) = some (ms, rest)) := by
  induction fuel with
  | zero =>
    refine ⟨fun v rest hlen _ => ?_, fun xs rest hlen => ?_, fun ms rest hlen => ?_⟩
    · obtain ⟨c, cs, hv, -, -, -⟩ := renderL_head v
      rw [hv] at hlen
      simp at hlen
    · omega
    · omega
  | succ fuel ih =>
    obtain ⟨ihV, ihI, ihM⟩ := ih
    refine ⟨fun v rest hlen hrest => ?_, fun xs rest hlen => ?_, fun ms rest hlen => ?_⟩
    · cases v with
      | null =>
        rw [show emitVal .null ++ rest = 'n' :: 'u' :: 'l' :: 'l' :: rest from by
          simp [emitVal], readVal.eq_def]
        simp [expectL]
      | bool b =>
        cases b with
        | false =>
          rw [show emitVal (.bool false) ++ rest = 'f' :: 'a' :: 'l' :: 's' :: 'e' :: rest from by
            simp [emitVal], readVal.eq_def]
          simp [expectL]
        | true =>
          rw [show emitVal (.bool true) ++ rest = 't' :: 'r' :: 'u' :: 'e' :: rest from by
            simp [emitVal], readVal.eq_def]
          simp [expectL]
      | num n =>
        have hd := delimOk_headFails rest hrest
        by_cases hneg : n < 0
        · rw [show emitVal (.num n) ++ rest = '-' :: (natChars n.natAbs ++ rest) from by
            simp [emitVal, renderInt, hneg], readVal.eq_def]
          have habs : (↑n.natAbs : Int) = -n := Int.ofNat_natAbs_of_nonpos (le_of_lt hneg)
          simp [parseNat_natChars _ _ hd, habs]
        · cases hnc : natChars n.toNat with
          | nil => exact absurd hnc (natChars_ne_nil _)
          | cons c cs =>
            have hdig : c.isDigit = true := natChars_all_digits _ c (by rw [hnc]; simp)
            obtain ⟨ne1, ne2, ne3, ne4, ne5, ne6, ne7, -, -, -⟩ := isDigit_ne c hdig
            rw [show emitVal (.num n) ++ rest = c :: (cs ++ rest) from by
              simp [emitVal, renderInt, hneg, hnc], readVal.eq_def]
            simp only [ne1, ne2, ne3, ne4, ne5, ne6, ne7, hdig, if_false, if_true,
              reduceIte, ite_false, ite_true]
            rw [show c :: (cs ++ rest) = natChars n.toNat ++ rest from by rw [hnc]; rfl,
              parseNat_natChars _ _ hd]
            simp
            omega
      | str s =>
        rw [show emitVal (.str s) ++ rest = '"' :: (escapeL s.data ++ '"' :: rest) from by
          simp [emitVal], readVal.eq_def]
        simp [parseStrAux_escape, string_mk_data]
      | arr xs =>
        have hlx : (emitVal (.arr xs)).length = (emitElems xs).length + 2 := by
          simp [emitVal]
        have hlen1 : (emitElems xs).length + 1 ≤ fuel := by omega
        rw [show emitVal (.arr xs) ++ rest = '[' :: (emitElems xs ++ ']' :: rest) from by
          simp [emitVal], readVal.eq_def]
        simp [ihI xs rest hlen1]
      | obj ms =>
        have hlx : (emitVal (.obj ms)).length = (emitFields ms).length + 2 := by
          simp [emitVal]
        have hlen1 : (emitFields ms).length + 1 ≤ fuel := by omega
        rw [show emitVal (.obj ms) ++ rest = '\x7b' :: (emitFields ms ++ '\x7d' :: rest)
            from by simp [emitVal], readVal.eq_def]
        simp [ihM ms rest hlen1]
    · cases xs with
      | nil =>
        rw [show emitElems [] ++ ']' :: rest = ']' :: rest from by simp [emitElems],
          readElems.eq_def]
        simp
      | cons x xs =>
        obtain ⟨c, cs, hx, hne1, hne2, hne3⟩ := renderL_head x
        cases xs with
        | nil =>
          have hlenx : (emitVal x).length ≤ fuel := by
            have hri : emitElems [x] = emitVal x := by simp [emitElems]
            rw [hri] at hlen; omega
          have hL : readVal fuel (c :: (cs ++ ']' :: rest)) = some (x, ']' :: rest) := by
            rw [← List.cons_append, ← hx]
            exact ihV x (']' :: rest) hlenx (by simp [delimOk])
          rw [show emitElems [x] ++ ']' :: rest = c :: (cs ++ ']' :: rest) from by
            simp [emitElems, hx], readElems.eq_def]
          simp [hne1, hL]
        | cons y ys =>
          have hsplit : emitElems (x :: y :: ys)
              = emitVal x ++ ',' :: emitElems (y :: ys) := by
            simp [emitElems]
          have hlen2 : (emitVal x).length + ((emitElems (y :: ys)).length + 1) + 1
              ≤ fuel + 1 := by
            rw [hsplit] at hlen; simp at hlen; omega
          have hlenx : (emitVal x).length ≤ fuel := by omega
          have hleny : (emitElems (y :: ys)).length + 1 ≤ fuel := by omega
          have hL : readVal fuel
              (c :: (cs ++ (',' :: (emitElems (y :: ys) ++ ']' :: rest))))
              = some (x, ',' :: (emitElems (y :: ys) ++ ']' :: rest)) := by
            rw [← List.cons_append, ← hx]
            exact ihV x _ hlenx (by simp [delimOk])
          rw [show emitElems (x :: y :: ys) ++ ']' :: rest
              = c :: (cs ++ (',' :: (emitElems (y :: ys) ++ ']' :: rest))) from by
            simp [emitElems, hx], readElems.eq_def]
          simp [hne1, hL, ihI (y :: ys) rest hleny]
    · cases ms with
      | nil =>
        rw [show emitFields [] ++ '\x7d' :: rest = '\x7d' :: rest from by
          simp [emitFields], readFields.eq_def]
        simp
      | cons kv ms =>
        obtain ⟨k, v⟩ := kv
        cases ms with
        | nil =>
          have hmem : emitFields [(k, v)]
              = '"' :: (escapeL k.data ++ '"' :: ':' :: emitVal v) := by
            simp [emitFields]
          have hlen2 : (escapeL k.data).length + (emitVal v).length + 4 ≤ fuel + 1 := by
            rw [hmem] at hlen; simp at hlen; omega
          have hlenv : (emitVal v).length ≤ fuel := by omega
          have hV : readVal fuel (emitVal v ++ '\x7d' :: rest)
              = some (v, '\x7d' :: rest) :=
            ihV v _ hlenv (by simp [delimOk])
          rw [show emitFields [(k, v)] ++ '\x7d' :: rest
              = '"' :: (escapeL k.data ++ '"' :: (':' :: (emitVal v ++ '\x7d' :: rest)))
              from by simp [emitFields], readFields.eq_def]
          simp [parseStrAux_escape, hV, string_mk_data]
        | cons kv2 ms2 =>
          have hmem : emitFields ((k, v) :: kv2 :: ms2)
              = ('"' :: (escapeL k.data ++ '"' :: ':' :: emitVal v))
                ++ ',' :: emitFields (kv2 :: ms2) := by
            simp [emitFields]
          have hlen2 : (escapeL k.data).length + (emitVal v).length
              + ((emitFields (kv2 :: ms2)).length + 1) + 4 ≤ fuel + 1 := by
            rw [hmem] at hlen; simp at hlen; omega
          have hlenv : (emitVal v).length ≤ fuel := by omega
          have hlenm : (emitFields (kv2 :: ms2)).length + 1 ≤ fuel := by omega
          have hV : readVal fuel
              (emitVal v ++ ',' :: (emitFields (kv2 :: ms2) ++ '\x7d' :: rest))
              = some (v, ',' :: (emitFields (kv2 :: ms2) ++ '\x7d' :: rest)) :=
            ihV v _ hlenv (by simp [delimOk])
          rw [show emitFields ((k, v) :: kv2 :: ms2) ++ '\x7d' :: rest
              = '"' :: (escapeL k.data ++ '"' :: (':' :: (emitVal v
                ++ ',' :: (emitFields (kv2 :: ms2) ++ '\x7d' :: rest))))
              from by simp [emitFields], readFields.eq_def]
          simp [parseStrAux_escape, hV, ihM (kv2 :: ms2) rest hlenm, string_mk_data]

/-- Round-trip law for the line encoding: decoding an encoded value
recovers it exactly. -/
theorem decode_encode_json (v : Json) : decode (encode v) = some v := by
  have h := (parse_render ((emitVal v).length + 1)).1 v [] (by omega) trivial
  rw [List.append_nil] at h
  show (match readVal ((emitVal v).length + 1) (emitVal v) with
    | some (w, []) => some w
    | _ => none) = some v
  rw [h]

/-! ### Induction principle for the nested `Json` type -/

theorem json_induction (P : Json → Prop)
    (hnull : P .null) (hbool : ∀ b, P (.bool b)) (hnum : ∀ n, P (.num n))
    (hstr : ∀ s, P (.str s))
    (harr : ∀ xs, (∀ x ∈ xs, P x) → P (.arr xs))
    (hobj : ∀ ms, (∀ kv ∈ ms, P kv.2) → P (.obj ms)) :
    ∀ v, P v
  | .null => hnull
  | .bool b => hbool b
  | .num n => hnum n
  | .str s => hstr s
  | .arr xs =>
    harr xs fun x hx =>
      have : sizeOf x < sizeOf (Json.arr xs) := by
        have := List.sizeOf_lt_of_mem hx
        simp only [Json.arr.sizeOf_spec]
        omega
      json_induction P hnull hbool hnum hstr harr hobj x
  | .obj ms =>
    hobj ms fun kv hkv =>
      have : sizeOf kv.2 < 1 + sizeOf ms := by
        have h1 := List.sizeOf_lt_of_mem hkv
        obtain ⟨k, v⟩ := kv
        simp at h1 ⊢
        omega
      json_induction P hnull hbool hnum hstr harr hobj kv.2
termination_by v => sizeOf v

/-! ### The rendered line never contains the newline delimiter -/

theorem hexDigitChar_ne_newline (d : Nat) (h : d < 16) : nibbleChar d ≠ '\n' := by
  interval_cases d <;> decide

theorem newline_not_in_escapeChar (c : Char) : '\n' ∉ escapeChar c := by
  unfold escapeChar
  split_ifs with h1 h2 h3 h4 h5 h6
  · decide
  · decide
  · decide
  · decide
  · decide
  · intro hmem
    have hdiv : c.toNat / 16 < 16 := by omega
    have hmod : c.toNat % 16 < 16 := Nat.mod_lt _ (by norm_num)
    rcases List.mem_cons.mp hmem with h | hmem
    · exact absurd h (by decide)
    rcases List.mem_cons.mp hmem with h | hmem
    · exact absurd h (by decide)
    rcases List.mem_cons.mp hmem with h | hmem
    · exact absurd h (by decide)
    rcases List.mem_cons.mp hmem with h | hmem
    · exact absurd h (by decide)
    rcases List.mem_cons.mp hmem with h | hmem
    · exact hexDigitChar_ne_newline _ hdiv h.symm
    rcases List.mem_cons.mp hmem with h | hmem
    · exact hexDigitChar_ne_newline _ hmod h.symm
    · cases hmem
  · intro hmem
    rcases List.mem_cons.mp hmem with h | hmem
    · exact h3 h.symm
    · cases hmem

theorem newline_not_in_escapeL (cs : List Char) : '\n' ∉ escapeL cs := by
  intro h
  rw [escapeL, List.mem_flatMap] at h
  obtain ⟨c, -, hc⟩ := h
  exact newline_not_in_escapeChar c hc

theorem newline_not_in_natChars (n : Nat) : '\n' ∉ natChars n := by
  intro h
  have := natChars_all_digits n _ h
  exact absurd this (by decide)

theorem newline_not_in_renderInt (n : Int) : '\n' ∉ renderInt n := by
  unfold renderInt
  split
  · intro h
    rcases List.mem_cons.mp h with h | h
    · exact absurd h (by decide)
    · exact newline_not_in_natChars _ h
  · exact newline_not_in_natChars _

theorem newline_not_in_renderItems (ys : List Json)
    (hall : ∀ x ∈ ys, '\n' ∉ emitVal x) : '\n' ∉ emitElems ys := by
  induction ys with
  | nil => simp [emitElems]
  | cons y ys ihy =>
    cases ys with
    | nil =>
      rw [show emitElems [y] = emitVal y from by simp [emitElems]]
      exact hall y (by simp)
    | cons z zs =>
      rw [show emitElems (y :: z :: zs) = emitVal y ++ ',' :: emitElems (z :: zs)
        from by simp [emitElems]]
      intro h
      rcases List.mem_append.mp h with h | h
      · exact hall y (by simp) h
      rcases List.mem_cons.mp h with h | h
      · exact absurd h (by decide)
      · exact ihy (fun x hx => hall x (by simp at hx ⊢; tauto)) h

theorem newline_not_in_renderMembers (ys : List (String × Json))
    (hall : ∀ kv ∈ ys, '\n' ∉ emitVal kv.2) : '\n' ∉ emitFields ys := by
  induction ys with
  | nil => simp [emitFields]
  | cons kv ys ihy =>
    obtain ⟨k, v⟩ := kv
    have hkv : '\n' ∉ '"' :: (escapeL k.data ++ '"' :: ':' :: emitVal v) := by
      intro h
      rcases List.mem_cons.mp h with h | h
      · exact absurd h (by decide)
      rcases List.mem_append.mp h with h | h
      · exact newline_not_in_escapeL _ h
      rcases List.mem_cons.mp h with h | h
      · exact absurd h (by decide)
      rcases List.mem_cons.mp h with h | h
      · exact absurd h (by decide)
      · exact hall (k, v) (by simp) h
    cases ys with
    | nil =>
      rw [show emitFields [(k, v)] = '"' :: (escapeL k.data ++ '"' :: ':' :: emitVal v)
        from by simp [emitFields]]
      exact hkv
    | cons kv2 ys2 =>
      rw [show emitFields ((k, v) :: kv2 :: ys2)
        = ('"' :: (escapeL k.data ++ '"' :: ':' :: emitVal v))
          ++ ',' :: emitFields (kv2 :: ys2) from by simp [emitFields]]
      intro h
      rcases List.mem_append.mp h with h | h
      · exact hkv h
      rcases List.mem_cons.mp h with h | h
      · exact absurd h (by decide)
      · exact ihy (fun kv hkv2 => hall kv (by simp at hkv2 ⊢; tauto)) h

theorem newline_not_in_renderL : ∀ v : Json, '\n' ∉ emitVal v := by
  refine json_induction _ ?_ ?_ ?_ ?_ ?_ ?_
  · decide
  · intro b
    cases b <;> decide
  · intro n
    rw [show emitVal (.num n) = renderInt n from by simp [emitVal]]
    exact newline_not_in_renderInt n
  · intro s
    rw [show emitVal (.str s) = '"' :: (escapeL s.data ++ ['"']) from by simp [emitVal]]
    intro h
    rcases List.mem_cons.mp h with h | h
    · exact absurd h (by decide)
    rcases List.mem_append.mp h with h | h
    · exact newline_not_in_escapeL _ h
    · rcases List.mem_cons.mp h with h | h
      · exact absurd h (by decide)
      · cases h
  · intro xs ihxs
    rw [show emitVal (.arr xs) = '[' :: (emitElems xs ++ [']']) from by simp [emitVal]]
    intro h
    rcases List.mem_cons.mp h with h | h
    · exact absurd h (by decide)
    rcases List.mem_append.mp h with h | h
    · exact newline_not_in_renderItems xs ihxs h
    · rcases List.mem_cons.mp h with h | h
      · exact absurd h (by decide)
      · cases h
  · intro ms ihms
    rw [show emitVal (.obj ms) = '\x7b' :: (emitFields ms ++ ['\x7d']) from by
      simp [emitVal]]
    intro h
    rcases List.mem_cons.mp h with h | h
    · exact absurd h (by decide)
    rcases List.mem_append.mp h with h | h
    · exact newline_not_in_renderMembers ms ihms h
    · rcases List.mem_cons.mp h with h | h
      · exact absurd h (by decide)
      · cases h

/-! ### Arithmetic of the i32 wrap -/

theorem wrap32_inI32 (n : Int) : inI32 (wrap32 n) := by
  unfold wrap32 inI32 i32Min i32Max
  have h1 : 0 ≤ (n + 2147483648) % 4294967296 :=
    Int.emod_nonneg _ (by norm_num)
  have h2 : (n + 2147483648) % 4294967296 < 4294967296 :=
    Int.emod_lt_of_pos _ (by norm_num)
  omega

theorem wrap32_dvd (n : Int) : (2 ^ 32 : Int) ∣ (wrap32 n - n) := by
  unfold wrap32
  have hp : (2 ^ 32 : Int) = 4294967296 := by norm_num
  have hm := Int.emod_def (n + 2147483648) 4294967296
  exact ⟨-((n + 2147483648) / 4294967296), by rw [hp]; omega⟩

theorem wrap32_of_inI32 (n : Int) (h : inI32 n) : wrap32 n = n := by
  unfold inI32 i32Min i32Max at h
  unfold wrap32
  rw [Int.emod_eq_of_lt (by omega) (by omega)]
  omega

/-! ## Claims -/

/-- C1 (counterexample): for the i32 pair (2147483647, 1) the dispatched
add response payload is not the mathematical sum of the arguments. -/
theorem add_dispatch_sum_counterexample :
    (dispatch ⟨⟩ ⟨⟩ ⟨"add", [Json.num 2147483647, Json.num 1], 0⟩).result
      ≠ Except.ok (Json.num (2147483647 + 1)) := by
  have hres : (dispatch ⟨⟩ ⟨⟩ ⟨"add", [Json.num 2147483647, Json.num 1], 0⟩).result
      = Except.ok (Json.num (-2147483648)) := by rfl
  rw [hres]
  intro h
  simp at h

/-- C1 (amended): dispatching add with i32 arguments produces exactly one
response carrying the request's correlation id whose payload is the
handler's return value, the two's-complement wrapped sum; that equals the
mathematical sum whenever the latter lies in the i32 range. -/
theorem add_dispatch_wrapped_sum (srv : HelloServer) (ctx : Context)
    (x y : Int) (id : Nat) (hx : inI32 x) (hy : inI32 y) :
    dispatch srv ctx ⟨"add", [Json.num x, Json.num y], id⟩
        = ⟨id, Except.ok (Json.num (wrap32 (x + y)))⟩
      ∧ (inI32 (x + y) → wrap32 (x + y) = x + y) := by
  constructor
  · simp [dispatch, HelloServer.add, hx, hy]
  · exact wrap32_of_inI32 _

/-- C1 (witness): add(2, 3) dispatched with correlation id 7 answers 5. -/
theorem add_dispatch_wrapped_sum_witness :
    dispatch ⟨⟩ ⟨⟩ ⟨"add", [Json.num 2, Json.num 3], 7⟩
      = ⟨7, Except.ok (Json.num 5)⟩ := by
  have h := (add_dispatch_wrapped_sum ⟨⟩ ⟨⟩ 2 3 7 (by decide) (by decide)).1
  rw [h]
  rfl

/-- C2 (counterexample): dispatching hello with the single argument "Bob"
does not produce the payload "Hello, Bob!"; the dispatcher answers it with
an argument-decode error response. -/
theorem hello_single_arg_counterexample :
    (dispatch ⟨⟩ ⟨⟩ ⟨"hello", [Json.str "Bob"], 0⟩).result
        ≠ Except.ok (Json.str "Hello, Bob!")
      ∧ (dispatch ⟨⟩ ⟨⟩ ⟨"hello", [Json.str "Bob"], 0⟩).result
        = Except.error RpcError.argumentDecodeError := by
  constructor
  · intro h
    rw [show (dispatch ⟨⟩ ⟨⟩ ⟨"hello", [Json.str "Bob"], 0⟩).result
      = Except.error RpcError.argumentDecodeError from rfl] at h
    simp at h
  · rfl

/-- C2 (amended): hello requires two string arguments: with the single
argument "Bob" dispatch answers an argument-decode error response carrying
the request's correlation id, and with arguments ("Bob", last) it answers
"Hello, Bob last!". -/
theorem hello_dispatch_amended (srv : HelloServer) (ctx : Context) (id : Nat) :
    dispatch srv ctx ⟨"hello", [Json.str "Bob"], id⟩
        = ⟨id, Except.error RpcError.argumentDecodeError⟩
      ∧ ∀ l : String, dispatch srv ctx ⟨"hello", [Json.str "Bob", Json.str l], id⟩
        = ⟨id, Except.ok (Json.str ("Hello, Bob " ++ l ++ "!"))⟩ := by
  constructor
  · rfl
  · intro l
    rfl

/-- C3: round-trip law of the line-oriented JSON transport: decoding the
encoding of any value the transport can carry yields the value back. -/
theorem transport_round_trip (m : Json) : decode (encode m) = some m :=
  decode_encode_json m

/-- C4: an inbound frame that does not decode as a request is answered with
a per-request decode-error response, the connection keeps serving the
remaining frames unchanged, and the loop is total — every frame of the
connection gets exactly one answer and the server does not crash. -/
theorem malformed_frame_isolated (srv : HelloServer) (ctx : Context)
    (bad : String) (rest : List String) (h : decodeRequest bad = none) :
    processFrames srv ctx (bad :: rest)
        = ConnEvent.decodeError :: processFrames srv ctx rest
      ∧ ∀ frames : List String, (processFrames srv ctx frames).length = frames.length := by
  constructor
  · simp [processFrames, h]
  · intro frames
    induction frames with
    | nil => rfl
    | cons f fs ih => simp [processFrames, ih]

/-- C4 (witness): the undecodable frame "oops" is answered with a
decode-error response and the following valid add request is still
served. -/
theorem malformed_frame_isolated_witness :
    decodeRequest "oops" = none
      ∧ processFrames ⟨⟩ ⟨⟩ ["oops", "\x7b\"method\":\"add\",\"id\":1,\"args\":[2,3]\x7d"]
        = ConnEvent.decodeError
          :: processFrames ⟨⟩ ⟨⟩ ["\x7b\"method\":\"add\",\"id\":1,\"args\":[2,3]\x7d"]
      ∧ processFrames ⟨⟩ ⟨⟩ ["oops", "\x7b\"method\":\"add\",\"id\":1,\"args\":[2,3]\x7d"]
        = [ConnEvent.decodeError, ConnEvent.reply ⟨1, Except.ok (Json.num 5)⟩] :=
  ⟨rfl, (malformed_frame_isolated ⟨⟩ ⟨⟩ "oops" _ rfl).1, rfl⟩

/-- C5: when the --port value fails to parse as an unsigned 16-bit
integer, main panics: the process exits with the nonzero code 101 and the
panic message names the offending value. -/
theorem invalid_port_exits_nonzero (s : String) (e : IntParseError)
    (h : parseU16 s = Except.error e) :
    mainParsePort s = Except.error (portErrorMsg s e, panicExitCode)
      ∧ panicExitCode ≠ 0
      ∧ ∃ pre post, portErrorMsg s e = pre ++ s ++ post := by
  refine ⟨?_, by decide, "--port value \"", "\" invalid: " ++ intParseErrorMsg e, ?_⟩
  · simp [mainParsePort, h]
  · simp [portErrorMsg, String.append_assoc]

/-- C5 (witness): the non-numeric value "abc" makes the process exit
nonzero with a message naming "abc". -/
theorem invalid_port_witness :
    mainParsePort "abc"
      = Except.error (portErrorMsg "abc" IntParseError.invalidDigit, panicExitCode) :=
  (invalid_port_exits_nonzero "abc" IntParseError.invalidDigit rfl).1

/-- C6: a bind failure makes `run` fail immediately with that error,
which is handed to the caller (main reports it) rather than retried; and
bind failure is the only way serving fails — with a successful bind every
accepted connection is served to completion whatever its frames contain. -/
theorem bind_error_only_fatal (srv : HelloServer) (ctx : Context) :
    (∀ e : String, run srv ctx (Except.error e) = Except.error e)
      ∧ (∀ lis : Listener, run srv ctx (Except.ok lis)
          = Except.ok (lis.connections.map (processFrames srv ctx)))
      ∧ (∀ br : Except String Listener,
          (∃ e, run srv ctx br = Except.error e) ↔ (∃ e, br = Except.error e))
      ∧ (∀ e : String, reportServeError e = "Oh no: " ++ e) := by
  refine ⟨fun e => rfl, fun lis => rfl, fun br => ?_, fun e => rfl⟩
  cases br with
  | error e => simp [run]
  | ok lis => simp [run]

/-- C7: the serialized payload of any value the transport sends contains
no occurrence of the newline delimiter, so one-object-per-line framing is
unambiguous. -/
theorem encoded_line_has_no_newline (m : Json) : '\n' ∉ (encode m).data :=
  newline_not_in_renderL m

/-- C8: hello takes exactly two string arguments and returns exactly
"Hello, " ++ first ++ " " ++ last ++ "!"; a one-argument hello request is
rejected as an argument-decode error. -/
theorem hello_format_exact (srv : HelloServer) (ctx : Context) :
    (∀ first last : String,
        srv.hello ctx first last = "Hello, " ++ first ++ " " ++ last ++ "!")
      ∧ (∀ (arg : Json) (id : Nat),
          (dispatch srv ctx ⟨"hello", [arg], id⟩).result
            = Except.error RpcError.argumentDecodeError) := by
  constructor
  · intro f l
    rfl
  · intro arg id
    cases arg <;> rfl

/-- C9: add performs two's-complement 32-bit addition: the result is the
wrapped sum, lies in the i32 range, is congruent to the mathematical sum
modulo 2^32, and differs from the mathematical sum exactly when the sum
overflows the range. -/
theorem add_twos_complement (srv : HelloServer) (ctx : Context) (x y : Int)
    (hx : inI32 x) (hy : inI32 y) :
    srv.add ctx x y = wrap32 (x + y)
      ∧ inI32 (srv.add ctx x y)
      ∧ (2 ^ 32 : Int) ∣ (srv.add ctx x y - (x + y))
      ∧ (inI32 (x + y) → srv.add ctx x y = x + y)
      ∧ (¬ inI32 (x + y) → srv.add ctx x y ≠ x + y) := by
  refine ⟨rfl, wrap32_inI32 _, wrap32_dvd _, fun h => wrap32_of_inI32 _ h,
    fun hno heq => ?_⟩
  have h1 : wrap32 (x + y) = x + y := heq
  exact hno (h1 ▸ wrap32_inI32 (x + y))

/-- C9 (witness): 2147483647 + 1 wraps to -2147483648. -/
theorem add_twos_complement_witness :
    HelloServer.mk.add ⟨⟩ 2147483647 1 = wrap32 (2147483647 + 1)
      ∧ HelloServer.mk.add ⟨⟩ 2147483647 1 = -2147483648 := by
  have h := add_twos_complement HelloServer.mk ⟨⟩ 2147483647 1 (by decide) (by decide)
  exact ⟨h.1, by rw [h.1]; rfl⟩

/-- C10: the service value carries no fields and the handlers are
deterministic: any two service values are equal, and handler results
depend only on the method arguments, not on the service value or the
context. -/
theorem handlers_stateless_deterministic :
    (∀ a b : HelloServer, a = b)
      ∧ (∀ (a b : HelloServer) (ctx ctx2 : Context) (first last : String),
          a.hello ctx first last = b.hello ctx2 first last)
      ∧ (∀ (a b : HelloServer) (ctx ctx2 : Context) (x y : Int),
          a.add ctx x y = b.add ctx2 x y) := by
  refine ⟨fun a b => ?_, fun a b c c2 f l => rfl, fun a b c c2 x y => rfl⟩
  cases a
  cases b
  rfl
